import Mathlib

/-!
Verification development for KiBot's file-collection engine
(`kibot/out_copy_files.py`).

The Python source is shallowly embedded: paths are strings with `/` as
separator, the filesystem is an explicit value threaded through the
functions, and the process-wide registry of outputs is part of an explicit
state.  Functions from `os.path`, `fnmatch` and `glob` used by the source
are modelled on normalized POSIX paths, implemented by structural recursion
on the character lists so that every definition evaluates inside the
kernel.  Compiled `re` filters are modelled as boolean predicates on
strings.
-/

namespace KiBotSpec

/-- Test whether string `p` is a prefix of string `s` (Python `str.startswith`). -/
def strStarts (p s : String) : Bool := p.data.isPrefixOf s.data

/-- Test whether string `p` is a suffix of string `s` (Python `str.endswith`). -/
def strEnds (p s : String) : Bool := p.data.isSuffixOf s.data

/-- Drop the last `n` characters of a string (Python `s[:-n]`). -/
def strDropRight (s : String) (n : Nat) : String :=
  String.mk (s.data.take (s.data.length - n))

/-- Model of `os.path.isabs` for POSIX paths. -/
def isAbs (s : String) : Bool := strStarts "/" s

/-- Split a character list on `/`, keeping empty components, as Python
`str.split('/')` does. -/
def splitAux : List Char → List Char → List String
  | [], acc => [String.mk acc.reverse]
  | c :: cs, acc =>
    if c = '/' then String.mk acc.reverse :: splitAux cs []
    else splitAux cs (c :: acc)

/-- Raw separator split of a path (Python `path.split('/')`). -/
def rawSplit (s : String) : List String := splitAux s.data []

/-- Components of a path, ignoring empty components (assumes the input is
normalized, as `os.path.normpath` output is). -/
def splitPath (s : String) : List String := (rawSplit s).filter (fun c => c ≠ "")

/-- Join path components with `/` separators. -/
def joinComps : List String → String
  | [] => ""
  | [c] => c
  | c :: rest => c ++ "/" ++ joinComps rest

/-- Model of `os.path.join` for two arguments on POSIX paths: an absolute
second argument replaces the first, otherwise the parts are joined with a
single separator. -/
def joinPath (a b : String) : String :=
  if isAbs b then b
  else if a = "" then b
  else if strEnds "/" a then a ++ b
  else a ++ "/" ++ b

/-- Model of `os.path.basename`: everything after the last separator. -/
def basename (s : String) : String := (rawSplit s).getLastD ""

/-- Model of `os.path.dirname`: everything before the last separator. -/
def dirname (s : String) : String :=
  let parts := rawSplit s
  if parts.length ≤ 1 then ""
  else
    let d := joinComps parts.dropLast
    if d = "" then "/" else d

/-- Length of the common prefix of two component lists. -/
def commonLen : List String → List String → Nat
  | a :: as, b :: bs => if a = b then commonLen as bs + 1 else 0
  | _, _ => 0

/-- Model of `os.path.relpath path start` for normalized paths that are both
absolute or both relative: drop the common component prefix, go up with
`..` for what remains of `start`, then down into `path`. -/
def relpath (path start : String) : String :=
  let p := splitPath path
  let s := splitPath start
  let n := commonLen p s
  let res := List.replicate (s.length - n) ".." ++ p.drop n
  if res.isEmpty then "." else joinComps res

/-- Fuelled worker for shell-pattern matching: `*` matches any run of
characters, `?` any single character (character classes are not used by the
source).  Every recursive call shrinks `pattern length + string length`, so
fuel `|pattern| + |string| + 1` always suffices. -/
def globMatchF : Nat → List Char → List Char → Bool
  | 0, _, _ => false
  | _ + 1, [], [] => true
  | _ + 1, [], _ :: _ => false
  | f + 1, '*' :: ps, [] => globMatchF f ps []
  | f + 1, '*' :: ps, c :: ss => globMatchF f ps (c :: ss) || globMatchF f ('*' :: ps) ss
  | _ + 1, '?' :: _, [] => false
  | f + 1, '?' :: ps, _ :: ss => globMatchF f ps ss
  | _ + 1, _ :: _, [] => false
  | f + 1, p :: ps, c :: ss => p = c && globMatchF f ps ss

/-- Model of `fnmatch.fnmatch` on strings (POSIX: no case folding). -/
def fnmatch (pat name : String) : Bool :=
  globMatchF (pat.data.length + name.data.length + 1) pat.data name.data

/-- Fuelled worker for component-wise glob matching as done by
`glob.glob(..., recursive=True)`: ordinary components match by `fnmatch`
and never cross a separator; a `**` component matches any number of
components. -/
def globCompF : Nat → List String → List String → Bool
  | 0, _, _ => false
  | _ + 1, [], [] => true
  | _ + 1, [], _ :: _ => false
  | f + 1, "**" :: ps, ss =>
    globCompF f ps ss ||
      match ss with
      | [] => false
      | _ :: ss' => globCompF f ("**" :: ps) ss'
  | _ + 1, _ :: _, [] => false
  | f + 1, p :: ps, c :: ss => fnmatch p c && globCompF f ps ss

/-- Whether a concrete path matches a glob pattern. -/
def globMatches (pat path : String) : Bool :=
  let ps := splitPath pat
  let ss := splitPath path
  globCompF (ps.length + ss.length + 1) ps ss

example : splitPath "/proj/3d/sub/part.step" = ["proj", "3d", "sub", "part.step"] := by decide
example : relpath "/proj/3d/sub/part.step" "/proj/3d" = "sub/part.step" := by decide
example : relpath "/proj/3dmodels/x" "/proj/3d" = "../3dmodels/x" := by decide
example : basename "/a/b/c.txt" = "c.txt" := by decide
example : joinPath "/w" "a.csv" = "/w/a.csv" := by decide
example : dirname "/o/x" = "/o" := by decide
example : fnmatch "*.wrl" "a.wrl" = true := by decide
example : fnmatch "*.wrl" "a.step" = false := by decide
example : globMatches "/w/*.csv" "/w/a.csv" = true := by decide
example : globMatches "/w/*.csv" "/w/sub/a.csv" = false := by decide
example : globMatches "/w/**/a.csv" "/w/x/y/a.csv" = true := by decide

/-! ### The FileSpec data model (`FilesList` in `out_copy_files.py`) -/

/-- The `source_type` field of a `FilesList` entry. -/
inductive SourceType
  | files
  | out_files
  | output
  | models3d
  | project
deriving DecidableEq

/-- One declarative file specification (class `FilesList`).  The compiled
regular expression `re.compile(f.filter)` is modelled as the predicate
`filter`; `rel_dirs` and `output_dir` are the attributes assigned onto the
object by `get_files` / `get_3d_models` before renaming. -/
structure FilesList where
  source : String := "*"
  source_type : SourceType := .files
  filter : String → Bool := fun _ => true
  dest : String := ""
  save_pcb : Bool := false
  append_mode : Bool := false
  output_dir : String := ""
  rel_dirs : List String := []

/-- Embedding of `FilesList.apply_rename`: the rename rule used for 3D-model
references written back into the board copy. -/
def apply_rename (f : FilesList) (fname : String) : String :=
  let dest :=
    if f.dest ≠ "" ∧ ¬ f.append_mode then
      basename fname
    else
      match f.rel_dirs.find? (fun d => strStarts d fname) with
      | some d => relpath fname d
      | none => basename fname
  "$\x7bKIPRJMOD\x7d/" ++ joinPath f.output_dir dest

/-- Destination computation of `Copy_FilesOptions.get_files` (the body of the
`for fname in filter(fil.match, files_list)` loop, lines 317-334): an
explicit user destination flattens to its basename; an absolute 3D-model or
project path is stripped of the first matching base directory (falling back
to the basename) and, in append mode, nested under the spec's output
directory; anything else is taken relative to the glob root. -/
def computeDest (f : FilesList) (mode_3d mode_project : Bool) (rel_dirs : List String)
    (src_dir fname : String) : String :=
  let is_abs := isAbs fname
  if f.dest ≠ "" ∧ ¬ f.append_mode then
    joinPath f.dest (basename fname)
  else if (mode_3d ∨ mode_project) ∧ is_abs then
    let dest :=
      match rel_dirs.find? (fun d => strStarts d fname) with
      | some d => relpath fname d
      | none => basename fname
    if f.append_mode then joinPath f.output_dir dest else dest
  else
    relpath fname src_dir

/-- Spec preparation done at the start of `get_3d_models` (lines 204-214): in
project mode the models always go to an appended `3d_models` directory; in
plain `3d_models` mode a `dest` ending in `+` requests append mode with the
`+` stripped. -/
def prep3dSpec (f : FilesList) (mode_project : Bool) : FilesList :=
  if mode_project then
    { f with output_dir := "3d_models", append_mode := true }
  else if f.dest ≠ "" ∧ strEnds "+" f.dest then
    { f with output_dir := strDropRight f.dest 1, append_mode := true }
  else
    { f with output_dir := f.dest, append_mode := false }

/-! ### STEP/WRL sibling augmentation (`get_3d_models`, lines 260-274) -/

/-- The format-alternative sibling of a 3D model file: `.wrl` maps to
`.step` and conversely; anything else has none. -/
def siblingOf (fn : String) : Option String :=
  if strEnds ".wrl" fn then some (strDropRight fn 4 ++ ".step")
  else if strEnds ".step" fn then some (strDropRight fn 5 ++ ".wrl")
  else none

/-- The `new_list` accumulated by the loop in lines 261-270: for each file of
the enumeration the sibling is a candidate when it exists on disk and is not
already part of the enumeration. -/
def siblingCandidates (files_list fs : List String) : List String :=
  files_list.filterMap (fun fn =>
    match siblingOf fn with
    | some fn2 => if fs.contains fn2 && !files_list.contains fn2 then some fn2 else none
    | none => none)

/-- The returned enumeration (line 274): the original list followed by the
sibling candidates that also match the spec's source pattern
(`fnmatch.filter(new_list, f.source)`). -/
def addSiblings (files_list fs : List String) (source : String) : List String :=
  files_list ++ (siblingCandidates files_list fs).filter (fun fn => fnmatch source fn)

example : addSiblings ["a.wrl"] ["a.wrl", "a.step"] "*" = ["a.wrl", "a.step"] := by decide
example : addSiblings ["a.wrl"] ["a.wrl", "a.step"] "*.wrl" = ["a.wrl"] := by decide
example : addSiblings ["a.step"] ["a.step", "a.wrl"] "*" = ["a.step", "a.wrl"] := by decide
example : prep3dSpec { dest := "out+" } false = { dest := "out+", output_dir := "out", append_mode := true } := by
  simp [prep3dSpec, strEnds, strDropRight]; decide

/-! ### Output registry and lazy cross-output triggering
(`Copy_FilesOptions.get_from_output`, lines 98-120) -/

/-- A registered output, as seen by the collector: its name, the target
files it declares for the current output directory (the dry
`out.get_targets(out_dir)` computation), its `_done` flag, the files its
execution creates, and a counter of how many times it has been executed in
this run (used to state the at-most-once property). -/
structure Output where
  name : String
  targets : List String
  done : Bool := false
  produces : List String := []
  runCount : Nat := 0
deriving DecidableEq

/-- Process state threaded through the collector: the set of files existing
on disk and the registry of outputs. -/
structure KState where
  fs : List String := []
  outs : List Output := []
deriving DecidableEq

/-- Exit codes used by `GS.exit_with_error` in this file (imported from
`misc`): `WRONG_ARGUMENTS` on line 108 and `INTERNAL_ERROR` on line 119. -/
inductive ErrorCode
  | WRONG_ARGUMENTS
  | INTERNAL_ERROR
deriving DecidableEq

/-- Failures of the collector.  The first two model `GS.exit_with_error`
calls and record the data named in the message besides the exit code; the
last models raising `KiPlotConfigurationError`. -/
inductive KError
  | unknownOutput (producer : String) (code : ErrorCode)
  | missingTarget (file : String) (producer : String) (code : ErrorCode)
  | configError (msg : String)
  | osError (msg : String)
deriving DecidableEq

/-- Look up a registered output by name (`RegOutput.get_output`). -/
def getOutput (st : KState) (name : String) : Option Output :=
  st.outs.find? (fun o => o.name = name)

/-- The `_done` flag of a registered output, `false` when unknown. -/
def outDone (st : KState) (name : String) : Bool :=
  ((getOutput st name).map (fun o => o.done)).getD false

/-- How many times a registered output has been executed. -/
def runCountOf (st : KState) (name : String) : Nat :=
  ((getOutput st name).map (fun o => o.runCount)).getD 0

/-- Append the elements of `new` that are not yet present. -/
def fsAdd (fs new : List String) : List String :=
  fs ++ new.filter (fun p => !fs.contains p)

/-- Modelled from the spec: `run_output` (the Orchestrator's single-output
runner, defined in `kiplot.py`, outside the sampled sources) configures and
runs one output, creating its files and marking it `done`.  The model adds
the output's `produces` files to the filesystem, sets `done` and counts the
execution. -/
def run_output (st : KState) (name : String) : KState :=
  { fs := fsAdd st.fs (((getOutput st name).map (fun o => o.produces)).getD []),
    outs := st.outs.map (fun o =>
      if o.name = name then { o with done := true, runCount := o.runCount + 1 } else o) }

/-- The target-checking loop of `get_from_output` (lines 110-119): for each
declared target that does not exist, run the producer unless it is already
`done`, then re-check; fail with `INTERNAL_ERROR` naming the file and the
producer when it is still missing. -/
def checkTargets (st : KState) (name : String) : List String → Except KError KState
  | [] => .ok st
  | file :: rest =>
    if st.fs.contains file then checkTargets st name rest
    else
      let st' := if outDone st name then st else run_output st name
      if st'.fs.contains file then checkTargets st' name rest
      else .error (.missingTarget file name .INTERNAL_ERROR)

/-- Embedding of `Copy_FilesOptions.get_from_output`: resolve the producer
named by the spec, take its declared target list, and unless `no_out_run`
make sure every target exists, lazily running the producer. -/
def get_from_output (st : KState) (f : FilesList) (no_out_run : Bool) :
    Except KError (List String × KState) :=
  match getOutput st f.source with
  | none => .error (.unknownOutput f.source .WRONG_ARGUMENTS)
  | some out =>
    let files_list := out.targets
    if no_out_run then .ok (files_list, st)
    else (checkTargets st f.source files_list).map (fun st' => (files_list, st'))

/-! ### Footprint and symbol extraction for project mode
(`copy_footprints` lines 122-156, `copy_symbols` lines 158-193) -/

/-- One board component as enumerated by `GS.get_modules()`: the footprint
identifier's library nickname and item name. -/
structure FpModule where
  libNick : String
  itemName : String
deriving DecidableEq

/-- Modelled from the spec: `GS.create_fp_lib` (defined in `gs.py`, outside
the sampled sources) creates the per-library `.pretty` directory and returns
its path. -/
def create_fp_lib (p : String) : String := p ++ ".pretty"

/-- The KiCad footprint library table file name (`FP_LIB_TABLE` from
`kicad.config`). -/
def FP_LIB_TABLE : String := "fp-lib-table"

/-- The KiCad symbol library table file name (`SYM_LIB_TABLE` from
`kicad.config`). -/
def SYM_LIB_TABLE : String := "sym-lib-table"

/-- Accumulator of the `copy_footprints` loop: the alias table under
construction (`aliases`, as nickname ↦ rewritten uri), the copy pairs
(`extra_files` before the table entry is appended), the set of source files
already queued (`added`) and the soft warnings emitted. -/
structure FpAcc where
  aliases : List (String × String) := []
  pairs : List (String × String) := []
  added : List String := []
  warnings : List String := []
deriving DecidableEq

/-- One iteration of the `for m in GS.get_modules()` loop of
`copy_footprints`: unknown libraries warn and skip; the alias is recorded
once per nickname; a missing footprint file warns and skips; an already
queued source file is not queued again. -/
def copyFpStep (out_lib_base out_lib_base_prj : String)
    (fp_nick_to_path : String → Option String) (fs : List String)
    (acc : FpAcc) (m : FpModule) : FpAcc :=
  let lib_nick := m.libNick
  match fp_nick_to_path lib_nick with
  | none => { acc with warnings := acc.warnings ++ ["Missing footprint library " ++ lib_nick] }
  | some src_lib =>
    let out_lib := create_fp_lib (joinPath out_lib_base lib_nick)
    let acc :=
      if (acc.aliases.map Prod.fst).contains lib_nick then acc
      else { acc with
        aliases := acc.aliases ++ [(lib_nick, joinPath out_lib_base_prj (lib_nick ++ ".pretty"))] }
    let mod_fname := m.itemName ++ ".kicad_mod"
    let footprint_src := joinPath src_lib mod_fname
    if !fs.contains footprint_src then
      { acc with warnings := acc.warnings ++
          ["Missing footprint " ++ m.itemName ++ " (" ++ lib_nick ++ ":" ++ m.itemName ++ ")"] }
    else if acc.added.contains footprint_src then acc
    else { acc with
      pairs := acc.pairs ++ [(footprint_src, joinPath out_lib mod_fname)],
      added := acc.added ++ [footprint_src] }

/-- Embedding of `Copy_FilesOptions.copy_footprints`: fold the step over the
board's modules.  `fp_nick_to_path` models `KiConf.fp_nick_to_path` reduced
to the alias uri. -/
def copy_footprints (output_dir dest : String) (fp_nick_to_path : String → Option String)
    (fs : List String) (modules : List FpModule) : FpAcc :=
  modules.foldl
    (copyFpStep (joinPath (joinPath output_dir dest) "footprints")
      (joinPath "$\x7bKIPRJMOD\x7d" "footprints") fp_nick_to_path fs)
    {}

/-- The footprint library table path written by `copy_footprints`
(line 152). -/
def fpTableFname (output_dir dest : String) : String :=
  joinPath (joinPath output_dir dest) FP_LIB_TABLE

/-- Embedding of the dry branch of `Copy_FilesOptions.copy_symbols`: group
the schematic's library symbols by library (empty library name meaning
`locally_edited`), announce the symbol table and one `.kicad_sym` file per
real library.  `symbols` models `GS.sch.lib_symbol_names.values()` as
(library, symbol-name) pairs. -/
def copy_symbols_dry (output_dir dest : String) (symbols : List (String × String)) :
    List String :=
  let out_lib_base := joinPath (joinPath output_dir dest) "symbols"
  let libNames := symbols.map (fun s => if s.1 = "" then "locally_edited" else s.1)
  let libs := libNames.foldl (fun acc l => if acc.contains l then acc else acc ++ [l]) []
  joinPath (joinPath output_dir dest) SYM_LIB_TABLE ::
    (libs.filter (fun l => l ≠ "locally_edited")).map
      (fun lib => joinPath out_lib_base (lib ++ ".kicad_sym"))

/-! ### The per-spec resolution pass (`Copy_FilesOptions.get_files`,
lines 276-344) -/

/-- An entry of the `extra_files` list built by `get_3d_models`: either a
plain string (a file the collector itself generates, appended as
`(None, f)`) or an explicit `(source, destination)` pair. -/
inductive ExtraFile
  | gen (path : String)
  | pair (src dst : String)
deriving DecidableEq

/-- Static collaborators of one collection pass: the working directory, the
configured output directory (`GS.out_dir` after expansion), the base
directories for 3D-model prefix stripping (built from `KiConf` on lines
284-289), the KiCad generation flag, the options' `output_dir`, and the
board/schematic data consumed through the external capability interface.
`models3d` models the list returned by `download_models` before pattern
filtering; `bundleFiles` is modelled from the spec: the project-bundle files
(board copy, schematic copy, project/prl/dru files, worksheet) computed by
lines 221-251 through external collaborators. -/
structure Env where
  cwd : String := "/work"
  out_dir : String := "/out"
  rel_dirs : List String := []
  ki6 : Bool := true
  output_dir : String := ""
  models3d : List String := []
  bundleFiles : List String := []
  fp_nick_to_path : String → Option String := fun _ => none
  modules : List FpModule := []
  symbols : List (String × String) := []

/-- The `for fname in filter(fil.match, files_list)` loop together with the
`extra_files` post-processing (lines 313-343): candidates must pass the
compiled filter, real files are paired with their computed destination
(`realpath`/`abspath` is the identity in this symlink-free model of absolute
paths), generated extra files are recorded with an absent source, and extra
pairs are kept as given — both kinds also subject to the filter. -/
def adaptFiles (f : FilesList) (mode_3d mode_project : Bool) (rel_dirs : List String)
    (src_dir : String) (files_list : List String) (extra_files : List ExtraFile) :
    List (Option String × String) :=
  (files_list.filter f.filter).map
    (fun fname => (some fname, computeDest f mode_3d mode_project rel_dirs src_dir fname))
  ++ extra_files.filterMap (fun e =>
      match e with
      | .gen s => if f.filter s then some (none, s) else none
      | .pair s d => if f.filter s then some (some s, d) else none)

/-- Embedding of `get_3d_models` (lines 199-274) for one spec: prepare the
spec, enumerate the referenced models (`download_models` restricted by the
source pattern), augment with STEP/WRL siblings, assemble the generated
extra files (project bundle, extracted footprints and the footprint table,
symbol libraries and their table), and in project mode re-root the spec's
output directory under its destination. -/
def get_3d_models (env : Env) (st : KState) (f : FilesList) (mode_project : Bool) :
    FilesList × List String × List ExtraFile :=
  let f1 := prep3dSpec f mode_project
  let enumerated := env.models3d.filter (fun m => fnmatch f1.source m)
  let files_list := addSiblings enumerated st.fs f1.source
  let extra : List ExtraFile :=
    if f1.save_pcb ∨ mode_project then
      env.bundleFiles.map ExtraFile.gen ++
        (if mode_project then
          (let fp := copy_footprints env.output_dir f1.dest env.fp_nick_to_path st.fs env.modules
           fp.pairs.map (fun p => ExtraFile.pair p.1 p.2)
             ++ [ExtraFile.gen (fpTableFname env.output_dir f1.dest)])
            ++ (copy_symbols_dry env.output_dir f1.dest env.symbols).map ExtraFile.gen
        else [])
    else []
  let f2 := if mode_project then { f1 with output_dir := joinPath f1.dest f1.output_dir } else f1
  (f2, files_list, extra)

/-- Resolution of a single `FilesList` entry, dispatched on `source_type`
exactly as the body of the `for f in self.files` loop (lines 291-343). -/
def collectSpec (env : Env) (no_out_run : Bool) (st : KState) (f : FilesList) :
    Except KError (List (Option String × String) × KState) :=
  let src_dir :=
    if f.source_type = .out_files ∨ f.source_type = .output then env.out_dir else env.cwd
  let mode_project := f.source_type = .project
  if mode_project ∧ ¬ env.ki6 then
    .error (.configError "The project mode needs KiCad 6 or newer")
  else
    let mode_3d := f.source_type = .models3d
    if f.source_type = .output then
      match get_from_output st f no_out_run with
      | .error e => .error e
      | .ok (files_list, st') =>
        .ok (adaptFiles f false false env.rel_dirs src_dir files_list [], st')
    else if mode_3d ∨ mode_project then
      let (f2, files_list, extra) := get_3d_models env st f mode_project
      .ok (adaptFiles f2 mode_3d mode_project env.rel_dirs src_dir files_list extra, st)
    else
      let files_list := st.fs.filter (fun p => globMatches (joinPath src_dir f.source) p)
      .ok (adaptFiles f false false env.rel_dirs src_dir files_list [], st)

/-- Embedding of `Copy_FilesOptions.get_files`: resolve every spec in order,
threading the process state (lazy triggering may run producer outputs), and
concatenate the resolved `(source?, destination)` pairs. -/
def getFilesM (env : Env) (no_out_run : Bool) :
    List FilesList → KState → Except KError (List (Option String × String) × KState)
  | [], st => .ok ([], st)
  | f :: rest, st =>
    match collectSpec env no_out_run st f with
    | .error e => .error e
    | .ok (l, st') =>
      match getFilesM env no_out_run rest st' with
      | .error e => .error e
      | .ok (ls, st'') => .ok (l ++ ls, st'')

/-- Embedding of `Copy_FilesOptions.get_targets`: a dry resolution pass
(`no_out_run=True`) whose destinations, joined under the output directory,
are reported sorted. -/
def get_targets (env : Env) (st : KState) (specs : List FilesList) (out_dir : String) :
    Except KError (List String) :=
  (getFilesM { env with output_dir := out_dir } true specs st).map
    (fun r => List.insertionSort (fun a b => a ≤ b) (r.1.map (fun v => joinPath out_dir v.2)))

/-- Embedding of `Copy_FilesOptions.get_dependencies`: the present source
paths of a dry resolution pass, sorted. -/
def get_dependencies (env : Env) (st : KState) (specs : List FilesList) :
    Except KError (List String) :=
  (getFilesM env true specs st).map
    (fun r => List.insertionSort (fun a b => a ≤ b) (r.1.filterMap (fun v => v.1)))

/-! ### The Executor (`Copy_FilesOptions.run`, lines 355-389) -/

/-- A filesystem for the copy phase: file contents by path, plus the set of
existing directories. -/
structure Fs where
  files : List (String × String) := []
  dirs : List String := []
deriving DecidableEq

/-- Model of `os.path.isfile`. -/
def fsIsFile (fs : Fs) (p : String) : Bool := (fs.files.lookup p).isSome

/-- Model of `os.path.isdir`. -/
def fsIsDir (fs : Fs) (p : String) : Bool := fs.dirs.contains p

/-- Model of `os.makedirs` restricted to the directory actually asked for
(intermediate parents play no further role in the source). -/
def fsMakedirs (fs : Fs) (d : String) : Fs := { fs with dirs := fs.dirs ++ [d] }

/-- Model of `os.remove`. -/
def fsRemove (fs : Fs) (p : String) : Fs :=
  { fs with files := fs.files.filter (fun e => e.1 ≠ p) }

/-- Write a file, replacing any previous entry for the same path. -/
def fsWrite (fs : Fs) (p c : String) : Fs :=
  { fs with files := (p, c) :: fs.files.filter (fun e => e.1 ≠ p) }

/-- Model of `os.path.samefile src dest` guarded by the
`except FileNotFoundError: pass` of lines 376-380: in this symlink-free
model two names denote the same underlying object exactly when both exist
and the (real) paths are equal; when either is missing the probe raises and
the source ignores it. -/
def sameFileCheck (fs : Fs) (src dest : String) : Bool :=
  fsIsFile fs src && fsIsFile fs dest && src = dest

/-- State of one copy run: the filesystem, the `copied` bookkeeping dict
(destination ↦ source, newest first) and the collision warnings emitted,
each recording (new source, earlier source, destination). -/
structure RunState where
  fs : Fs := {}
  copied : List (String × String) := []
  warnings : List (String × String × String) := []
deriving DecidableEq

/-- Lines 369-371: create the destination directory when absent. -/
def stepMakedirs (st : RunState) (dest_dir : String) : RunState :=
  if fsIsDir st.fs dest_dir then st else { st with fs := fsMakedirs st.fs dest_dir }

/-- Lines 373-375: emit the non-fatal collision warning when the destination
was already written in this run. -/
def stepWarn (st : RunState) (src dest : String) : RunState :=
  match st.copied.lookup dest with
  | some prev => { st with warnings := st.warnings ++ [(src, prev, dest)] }
  | none => st

/-- Lines 381-382: remove an already existing destination. -/
def stepRemove (st : RunState) (dest : String) : RunState :=
  if fsIsFile st.fs dest then { st with fs := fsRemove st.fs dest } else st

/-- One iteration of the copy loop (lines 364-387).  A missing `src` is a
collector-generated file and is skipped.  Otherwise: the destination
directory is created when absent, a non-fatal collision warning is emitted
when the destination was already written in this run, copying a file onto
itself raises `KiPlotConfigurationError`, an existing destination is
removed, and the file is linked or copied.  Errors carry the state at the
moment of failure. -/
def runStep (output : String) (link_no_copy : Bool) (st : RunState)
    (entry : Option String × String) : Except (KError × RunState) RunState :=
  match entry.1 with
  | none => .ok st
  | some src =>
    let dest := joinPath (output ++ "/") entry.2
    let st1 := stepMakedirs st (dirname dest)
    let st2 := stepWarn st1 src dest
    if sameFileCheck st2.fs src dest then
      .error (.configError ("Trying to copy " ++ src ++ " over itself " ++ dest), st2)
    else
      let st3 := stepRemove st2 dest
      match st3.fs.files.lookup src with
      | none => .error (.osError ("No such file: " ++ src), st3)
      | some content =>
        let st4 :=
          if link_no_copy then
            { st3 with fs := fsWrite st3.fs dest ("symlink:" ++ relpath src (dirname dest)) }
          else
            { st3 with fs := fsWrite st3.fs dest content }
        .ok { st4 with copied := (dest, src) :: st4.copied }

/-- Embedding of the copy loop of `Copy_FilesOptions.run` over an already
resolved file list (the trailing `remove_temporals` touches only
resolution temporaries and is outside this model). -/
def runCopy (output : String) (link_no_copy : Bool) :
    List (Option String × String) → RunState → Except (KError × RunState) RunState
  | [], st => .ok st
  | e :: rest, st =>
    match runStep output link_no_copy st e with
    | .error err => .error err
    | .ok st' => runCopy output link_no_copy rest st'

/-! ### General helper lemmas -/

theorem contains_iff_mem (l : List String) (a : String) : l.contains a = true ↔ a ∈ l := by
  simp [List.contains, List.elem_iff]

instance {ε α : Type} [DecidableEq ε] [DecidableEq α] : DecidableEq (Except ε α) := fun x y =>
  match x, y with
  | .ok a, .ok b =>
    if h : a = b then isTrue (by rw [h]) else isFalse (fun hh => h (Except.ok.inj hh))
  | .error a, .error b =>
    if h : a = b then isTrue (by rw [h]) else isFalse (fun hh => h (Except.error.inj hh))
  | .ok _, .error _ => isFalse (fun hh => Except.noConfusion hh)
  | .error _, .ok _ => isFalse (fun hh => Except.noConfusion hh)

/-! ### C7: resolution of `files` specs -/

/-- C7: a `files` spec is glob-expanded against the filesystem relative to
the current working directory, the compiled filter is applied to each
candidate full path, and with an empty `dest` every destination is the
source path relative to the glob root. -/
theorem files_spec_resolution (env : Env) (st : KState) (f : FilesList) (nr : Bool)
    (hty : f.source_type = .files) (hdest : f.dest = "") :
    collectSpec env nr st f =
      .ok (((st.fs.filter (fun p => globMatches (joinPath env.cwd f.source) p)).filter
          f.filter).map (fun p => (some p, relpath p env.cwd)), st) := by
  simp [collectSpec, hty, adaptFiles, computeDest, hdest]

/-- Witness for C7, the end-to-end scenario: pattern `*.csv` over a
directory holding `a.csv`, `b.csv`, `c.txt` resolves to exactly the two csv
files at their relative paths. -/
theorem files_spec_resolution_witness :
    collectSpec { cwd := "/w", out_dir := "/out" } true
        { fs := ["/w/a.csv", "/w/b.csv", "/w/c.txt"], outs := [] }
        { source := "*.csv", source_type := .files } =
      .ok ([(some "/w/a.csv", "a.csv"), (some "/w/b.csv", "b.csv")],
        { fs := ["/w/a.csv", "/w/b.csv", "/w/c.txt"], outs := [] }) := by
  rw [files_spec_resolution _ _ _ _ rfl rfl]
  congr 1

/-! ### C2: destination computation for `3d_models` specs -/

/-- C2 counterexample: two file paths resolved by `3d_models` specs whose
destination is not computed by stripping the matching base directory.
First, with a plain (non-append) destination the file flattens to the
basename under `dest`, not to the stripped `sub/part.step`.  Second, a
non-absolute model path is not stripped either, even though a base
directory is a string prefix of it (line 324 guards the stripping loop
with `is_abs`). -/
theorem dest_strip_counterexample :
    (computeDest (prep3dSpec { source := "*", source_type := .models3d, dest := "flat" } false)
        true false ["/proj/3d", "/proj/3rd"] "/w" "/proj/3d/sub/part.step" = "flat/part.step" ∧
      ("flat/part.step" : String) ≠ "sub/part.step") ∧
    (strStarts "rel" "rel/sub/part.step" = true ∧
      isAbs "rel/sub/part.step" = false ∧
      computeDest (prep3dSpec { source := "*", source_type := .models3d } false)
        true false ["rel"] "/w" "rel/sub/part.step" ≠ "sub/part.step") := by decide

/-- C2 amended: for an absolute path resolved by a `3d_models` spec whose
`dest` is empty or in append mode, the destination strips the first
matching base directory (first match wins) and falls back to
basename-only flattening when no base directory matches, the result being
nested under the spec's output directory exactly when append mode is set;
with a non-empty non-append `dest` every file is instead flattened to its
basename under `dest`; non-absolute paths are never prefix-stripped. -/
theorem dest_strip_amended (f : FilesList) (mp : Bool) (rel_dirs : List String)
    (src_dir fname : String) (habs : isAbs fname = true) :
    (∀ d, rel_dirs.find? (fun b => strStarts b fname) = some d → f.append_mode = true →
      computeDest f true mp rel_dirs src_dir fname = joinPath f.output_dir (relpath fname d)) ∧
    (∀ d, rel_dirs.find? (fun b => strStarts b fname) = some d → f.dest = "" →
      f.append_mode = false →
      computeDest f true mp rel_dirs src_dir fname = relpath fname d) ∧
    (rel_dirs.find? (fun b => strStarts b fname) = none → f.append_mode = true →
      computeDest f true mp rel_dirs src_dir fname = joinPath f.output_dir (basename fname)) ∧
    (rel_dirs.find? (fun b => strStarts b fname) = none → f.dest = "" →
      f.append_mode = false →
      computeDest f true mp rel_dirs src_dir fname = basename fname) ∧
    (f.dest ≠ "" → f.append_mode = false →
      computeDest f true mp rel_dirs src_dir fname = joinPath f.dest (basename fname)) := by
  refine ⟨?_, ?_, ?_, ?_, ?_⟩
  · intro d hfind happ
    simp only [computeDest]
    rw [hfind]
    simp [happ, habs]
  · intro d hfind hdest happ
    simp only [computeDest]
    rw [hfind]
    simp [hdest, happ, habs]
  · intro hfind happ
    simp only [computeDest]
    rw [hfind]
    simp [happ, habs]
  · intro hfind hdest happ
    simp only [computeDest]
    rw [hfind]
    simp [hdest, happ, habs]
  · intro hdest happ
    simp [computeDest, hdest, happ]

/-- Witness for C2 amended, the end-to-end scenario: base directories
`[/proj/3d, /proj/3rd]`, append mode via `dest = out+`, model
`/proj/3d/sub/part.step` resolves to `out/sub/part.step`. -/
theorem dest_strip_amended_witness :
    computeDest (prep3dSpec { source := "*", source_type := .models3d, dest := "out+" } false)
        true false ["/proj/3d", "/proj/3rd"] "/w" "/proj/3d/sub/part.step" =
      "out/sub/part.step" := by
  have h := (dest_strip_amended
      (prep3dSpec { source := "*", source_type := .models3d, dest := "out+" } false)
      false ["/proj/3d", "/proj/3rd"] "/w" "/proj/3d/sub/part.step" (by decide)).1
      "/proj/3d" (by decide) (by decide)
  rw [h]
  decide

/-! ### C6: STEP/WRL sibling augmentation -/

/-- C6 counterexample: `a.wrl` is enumerated, its sibling `a.step` exists on
disk and is not yet in the list, but it is not added because the sibling
additions are filtered by the spec's source pattern (`*.wrl` here). -/
theorem siblings_counterexample :
    siblingOf "a.wrl" = some "a.step" ∧
    (["a.wrl", "a.step"] : List String).contains "a.step" = true ∧
    (["a.wrl"] : List String).contains "a.step" = false ∧
    addSiblings ["a.wrl"] ["a.wrl", "a.step"] "*.wrl" = ["a.wrl"] := by decide

/-- C6 amended: the STEP/WRL sibling of an enumerated file is added exactly
when it exists on disk, is not already enumerated, and additionally matches
the spec's source pattern; conversely everything added beyond the
enumeration matches the pattern, exists on disk and is the sibling of an
enumerated file. -/
theorem siblings_amended (files_list fs : List String) (source : String) :
    (∀ fn fn2, fn ∈ files_list → siblingOf fn = some fn2 → fs.contains fn2 = true →
      files_list.contains fn2 = false → fnmatch source fn2 = true →
      fn2 ∈ addSiblings files_list fs source) ∧
    (∀ x, x ∈ addSiblings files_list fs source → x ∈ files_list ∨
      (fnmatch source x = true ∧ fs.contains x = true ∧
        ∃ fn, fn ∈ files_list ∧ siblingOf fn = some x)) := by
  constructor
  · intro fn fn2 hmem hsib hex hnew hmat
    unfold addSiblings
    refine List.mem_append.mpr (Or.inr ?_)
    refine List.mem_filter.mpr ⟨?_, hmat⟩
    unfold siblingCandidates
    refine List.mem_filterMap.mpr ⟨fn, hmem, ?_⟩
    rw [hsib]
    dsimp only
    rw [hex, hnew]
    simp
  · intro x hx
    rcases List.mem_append.mp hx with h | h
    · exact Or.inl h
    · obtain ⟨hc, hmat⟩ := List.mem_filter.mp h
      obtain ⟨fn, hfn, heq⟩ := List.mem_filterMap.mp hc
      right
      cases hs : siblingOf fn with
      | none => rw [hs] at heq; cases heq
      | some fn2 =>
        rw [hs] at heq
        dsimp only at heq
        split at heq
        next hcond =>
          simp only [Bool.and_eq_true] at hcond
          obtain ⟨hfs, _⟩ := hcond
          cases heq
          exact ⟨hmat, hfs, fn, hfn, hs⟩
        next => cases heq

/-- Witness for C6 amended: with the permissive pattern `*` the existing
sibling is added. -/
theorem siblings_amended_witness :
    "a.step" ∈ addSiblings ["a.wrl"] ["a.wrl", "a.step"] "*" :=
  (siblings_amended ["a.wrl"] ["a.wrl", "a.step"] "*").1 "a.wrl" "a.step"
    (by decide) (by decide) (by decide) (by decide) (by decide)

/-! ### Lemmas about the registry and lazy triggering -/

theorem getOutput_name (st : KState) (m : String) (o : Output)
    (h : getOutput st m = some o) : o.name = m := by
  have := List.find?_some h
  simpa using this

theorem getOutput_run (st : KState) (n m : String) :
    getOutput (run_output st n) m =
      (getOutput st m).map (fun o =>
        if o.name = n then { o with done := true, runCount := o.runCount + 1 } else o) := by
  unfold getOutput run_output
  rw [List.find?_map]
  have heq : ((fun o : Output => decide (o.name = m)) ∘ (fun o : Output =>
      if o.name = n then { o with done := true, runCount := o.runCount + 1 } else o)) =
      fun o : Output => decide (o.name = m) := by
    funext o
    by_cases h : o.name = n <;> simp [h]
  rw [heq]

theorem contains_run_output (st : KState) (n x : String)
    (h : st.fs.contains x = true) : (run_output st n).fs.contains x = true := by
  have hm : x ∈ (run_output st n).fs := by
    unfold run_output fsAdd
    exact List.mem_append.mpr (Or.inl ((contains_iff_mem _ _).mp h))
  exact (contains_iff_mem _ _).mpr hm

theorem checkTargets_all_present (st : KState) (n : String) (l : List String)
    (h : ∀ x ∈ l, st.fs.contains x = true) : checkTargets st n l = .ok st := by
  induction l with
  | nil => rfl
  | cons a t ih =>
    simp only [checkTargets]
    rw [if_pos (h a (List.mem_cons_self a t))]
    exact ih (fun x hx => h x (List.mem_cons_of_mem a hx))

theorem checkTargets_append_present (st : KState) (n : String) (pre l : List String)
    (h : ∀ x ∈ pre, st.fs.contains x = true) :
    checkTargets st n (pre ++ l) = checkTargets st n l := by
  induction pre with
  | nil => rfl
  | cons a t ih =>
    rw [List.cons_append]
    simp only [checkTargets]
    rw [if_pos (h a (List.mem_cons_self a t))]
    exact ih (fun x hx => h x (List.mem_cons_of_mem a hx))

/-- Helper: an unknown producer fails with the `WRONG_ARGUMENTS` exit. -/
theorem get_from_output_unknown (st : KState) (f : FilesList) (nr : Bool)
    (h : getOutput st f.source = none) :
    get_from_output st f nr = .error (.unknownOutput f.source .WRONG_ARGUMENTS) := by
  simp [get_from_output, h]

/-- Helper: a registered not-yet-done producer whose first missing target is
still missing after its triggered run makes the collection fail with the
`INTERNAL_ERROR` exit naming the file and the producer. -/
theorem get_from_output_missing (st : KState) (f : FilesList) (out : Output)
    (pre post : List String) (t : String)
    (hreg : getOutput st f.source = some out) (hdone : out.done = false)
    (htgt : out.targets = pre ++ t :: post)
    (hpre : ∀ x ∈ pre, st.fs.contains x = true)
    (hmiss : st.fs.contains t = false)
    (hstill : (run_output st f.source).fs.contains t = false) :
    get_from_output st f false = .error (.missingTarget t f.source .INTERNAL_ERROR) := by
  have hod : outDone st f.source = false := by simp [outDone, hreg, hdone]
  have hm1 : t ∉ st.fs := by
    intro h
    rw [(contains_iff_mem st.fs t).mpr h] at hmiss
    exact Bool.noConfusion hmiss
  have hm2 : t ∉ (run_output st f.source).fs := by
    intro h
    rw [(contains_iff_mem _ t).mpr h] at hstill
    exact Bool.noConfusion hstill
  simp only [get_from_output, hreg]
  rw [htgt]
  rw [checkTargets_append_present st f.source pre _ hpre]
  simp [checkTargets, hmiss, hod, hstill, hm1, hm2, Except.map]

/-- Helper: a registered not-yet-done producer with a missing target is run,
and when the run creates all targets the collection succeeds with the
post-run state. -/
theorem get_from_output_triggers (st : KState) (f : FilesList) (out : Output)
    (pre post : List String) (t : String)
    (hreg : getOutput st f.source = some out) (hdone : out.done = false)
    (htgt : out.targets = pre ++ t :: post)
    (hpre : ∀ x ∈ pre, st.fs.contains x = true)
    (hmiss : st.fs.contains t = false)
    (hall : ∀ x ∈ out.targets, (run_output st f.source).fs.contains x = true) :
    get_from_output st f false = .ok (out.targets, run_output st f.source) := by
  have hod : outDone st f.source = false := by simp [outDone, hreg, hdone]
  have ht : (run_output st f.source).fs.contains t = true :=
    hall t (by rw [htgt]; exact List.mem_append.mpr (Or.inr (List.mem_cons_self t post)))
  have hpost : checkTargets (run_output st f.source) f.source post =
      .ok (run_output st f.source) :=
    checkTargets_all_present _ f.source post (fun x hx => hall x
      (by rw [htgt]; exact List.mem_append.mpr (Or.inr (List.mem_cons_of_mem t hx))))
  have hm1 : t ∉ st.fs := by
    intro h
    rw [(contains_iff_mem st.fs t).mpr h] at hmiss
    exact Bool.noConfusion hmiss
  have hm3 : t ∈ (run_output st f.source).fs := (contains_iff_mem _ t).mp ht
  simp only [get_from_output, hreg]
  rw [htgt]
  rw [checkTargets_append_present st f.source pre _ hpre]
  simp [checkTargets, hmiss, hod, ht, hpost, hm1, hm3, Except.map]

/-- Helper: once every declared target exists, requesting the producer again
leaves the state untouched (in particular it is not run again). -/
theorem get_from_output_no_retrigger (st : KState) (f : FilesList) (out : Output)
    (hreg : getOutput st f.source = some out)
    (hall : ∀ x ∈ out.targets, st.fs.contains x = true) :
    get_from_output st f false = .ok (out.targets, st) := by
  simp only [get_from_output, hreg]
  rw [checkTargets_all_present st f.source out.targets hall]
  simp [Except.map]

/-! ### C1: at-most-once lazy triggering of producer outputs -/

/-- C1: for an `output` spec naming a registered producer that is not yet
`done` and whose declared target `t` is missing on disk, resolution
triggers exactly one execution of the producer (its run counter increases
by one) and re-checks the file: if `t` is still missing after the run the
collection fails with the build error naming the missing file and the
producer, and if the run created every target the collection succeeds and a
second request in the same run returns the same answer without
re-triggering (the state, including the run counter, is unchanged). -/
theorem output_lazy_trigger (st : KState) (f : FilesList) (out : Output)
    (pre post : List String) (t : String)
    (hreg : getOutput st f.source = some out) (hdone : out.done = false)
    (htgt : out.targets = pre ++ t :: post)
    (hpre : ∀ x ∈ pre, st.fs.contains x = true)
    (hmiss : st.fs.contains t = false) :
    runCountOf (run_output st f.source) f.source = runCountOf st f.source + 1 ∧
    ((run_output st f.source).fs.contains t = false →
      get_from_output st f false = .error (.missingTarget t f.source .INTERNAL_ERROR)) ∧
    ((∀ x ∈ out.targets, (run_output st f.source).fs.contains x = true) →
      get_from_output st f false = .ok (out.targets, run_output st f.source) ∧
      get_from_output (run_output st f.source) f false =
        .ok (out.targets, run_output st f.source)) := by
  have hname := getOutput_name st f.source out hreg
  refine ⟨?_, ?_, ?_⟩
  · unfold runCountOf
    rw [getOutput_run, hreg]
    simp [hname]
  · intro hstill
    exact get_from_output_missing st f out pre post t hreg hdone htgt hpre hmiss hstill
  · intro hall
    refine ⟨get_from_output_triggers st f out pre post t hreg hdone htgt hpre hmiss hall, ?_⟩
    have hreg' : getOutput (run_output st f.source) f.source =
        some { out with done := true, runCount := out.runCount + 1 } := by
      rw [getOutput_run, hreg]
      simp [hname]
    exact get_from_output_no_retrigger (run_output st f.source) f
      { out with done := true, runCount := out.runCount + 1 } hreg' hall

/-- Witness for C1: a producer with one missing target is triggered once,
resolution succeeds, and the run counter ends at one. -/
theorem output_lazy_trigger_witness :
    get_from_output
        { fs := [], outs := [{ name := "prod", targets := ["/t/x.bin"], produces := ["/t/x.bin"] }] }
        { source := "prod", source_type := .output } false =
      .ok (["/t/x.bin"], run_output
        { fs := [], outs := [{ name := "prod", targets := ["/t/x.bin"], produces := ["/t/x.bin"] }] }
        "prod") ∧
    runCountOf (run_output
        { fs := [], outs := [{ name := "prod", targets := ["/t/x.bin"], produces := ["/t/x.bin"] }] }
        "prod") "prod" = 1 := by
  have h := output_lazy_trigger
      { fs := [], outs := [{ name := "prod", targets := ["/t/x.bin"], produces := ["/t/x.bin"] }] }
      { source := "prod", source_type := .output }
      { name := "prod", targets := ["/t/x.bin"], produces := ["/t/x.bin"] }
      [] [] "/t/x.bin" (by decide) (by decide) rfl (by simp) (by decide)
  exact ⟨(h.2.2 (by decide)).1, by decide⟩

/-! ### C5: classification of the two resolution failures -/

/-- C5 counterexample: the unknown-producer failure exits with the
`WRONG_ARGUMENTS` code, which is a different classification from the
`INTERNAL_ERROR` build error — so the two resolution failures are not both
classified as an internal/build error. -/
theorem resolution_error_counterexample :
    get_from_output { fs := [], outs := [] } { source := "nope", source_type := .output } false =
      .error (.unknownOutput "nope" .WRONG_ARGUMENTS) ∧
    ErrorCode.WRONG_ARGUMENTS ≠ ErrorCode.INTERNAL_ERROR := by decide

/-- C5 amended: both resolution failures of an `output` spec are fatal to
the current output, but they are classified differently: an unknown
producer exits with the `WRONG_ARGUMENTS` (user arguments) code, while a
declared target still missing after the producer ran exits with the
`INTERNAL_ERROR` build-error code. -/
theorem resolution_errors_amended (st : KState) (f : FilesList) :
    (getOutput st f.source = none →
      get_from_output st f false = .error (.unknownOutput f.source .WRONG_ARGUMENTS)) ∧
    (∀ out pre post t, getOutput st f.source = some out → out.done = false →
      out.targets = pre ++ t :: post → (∀ x ∈ pre, st.fs.contains x = true) →
      st.fs.contains t = false → (run_output st f.source).fs.contains t = false →
      get_from_output st f false = .error (.missingTarget t f.source .INTERNAL_ERROR)) ∧
    ErrorCode.WRONG_ARGUMENTS ≠ ErrorCode.INTERNAL_ERROR := by
  refine ⟨fun h => get_from_output_unknown st f false h, ?_, by decide⟩
  intro out pre post t hreg hdone htgt hpre hmiss hstill
  exact get_from_output_missing st f out pre post t hreg hdone htgt hpre hmiss hstill

/-- Witness for C5 amended: a concrete unknown producer and a concrete
producer whose target stays missing, with their two distinct error
classifications. -/
theorem resolution_errors_amended_witness :
    get_from_output { fs := [], outs := [] } { source := "nope", source_type := .output } false =
      .error (.unknownOutput "nope" .WRONG_ARGUMENTS) ∧
    get_from_output { fs := [], outs := [{ name := "p", targets := ["/t/y"], produces := [] }] }
        { source := "p", source_type := .output } false =
      .error (.missingTarget "/t/y" "p" .INTERNAL_ERROR) := by
  constructor
  · exact (resolution_errors_amended { fs := [], outs := [] }
      { source := "nope", source_type := .output }).1 (by decide)
  · exact (resolution_errors_amended
      { fs := [], outs := [{ name := "p", targets := ["/t/y"], produces := [] }] }
      { source := "p", source_type := .output }).2.1
      { name := "p", targets := ["/t/y"], produces := [] } [] [] "/t/y"
      (by decide) (by decide) rfl (by simp) (by decide) (by decide)

/-! ### Lemmas about the copy-phase filesystem -/

theorem lookup_filter_ne (l : List (String × String)) (p q : String) (h : q ≠ p) :
    (l.filter (fun e => e.1 ≠ p)).lookup q = l.lookup q := by
  induction l with
  | nil => rfl
  | cons e t ih =>
    by_cases he : e.1 = p
    · have hd : (decide (e.1 ≠ p)) = false := by simp [he]
      have hb : (q == e.1) = false := by
        rw [he]
        exact beq_eq_false_iff_ne.mpr h
      simp only [List.filter_cons, hd, Bool.false_eq_true, if_false, List.lookup, hb, ih]
    · have hd : (decide (e.1 ≠ p)) = true := by simp [he]
      simp only [List.filter_cons, hd, if_true, List.lookup]
      cases hq : (q == e.1) with
      | true => simp only [hq]
      | false =>
        simp only [hq]
        exact ih

theorem lookup_fsWrite_self (fs : Fs) (p c : String) :
    (fsWrite fs p c).files.lookup p = some c := by
  simp [fsWrite, List.lookup]

theorem lookup_fsWrite_ne (fs : Fs) (p c q : String) (h : q ≠ p) :
    (fsWrite fs p c).files.lookup q = fs.files.lookup q := by
  have hb : (q == p) = false := beq_eq_false_iff_ne.mpr h
  simp only [fsWrite, List.lookup, hb]
  exact lookup_filter_ne fs.files p q h

theorem lookup_fsRemove_ne (fs : Fs) (p q : String) (h : q ≠ p) :
    (fsRemove fs p).files.lookup q = fs.files.lookup q :=
  lookup_filter_ne fs.files p q h

theorem stepMakedirs_files (st : RunState) (dd : String) :
    (stepMakedirs st dd).fs.files = st.fs.files := by
  unfold stepMakedirs; split <;> rfl

theorem stepMakedirs_copied (st : RunState) (dd : String) :
    (stepMakedirs st dd).copied = st.copied := by
  unfold stepMakedirs; split <;> rfl

theorem stepMakedirs_warnings (st : RunState) (dd : String) :
    (stepMakedirs st dd).warnings = st.warnings := by
  unfold stepMakedirs; split <;> rfl

theorem stepWarn_fs (st : RunState) (src dest : String) :
    (stepWarn st src dest).fs = st.fs := by
  unfold stepWarn; split <;> rfl

theorem stepWarn_copied (st : RunState) (src dest : String) :
    (stepWarn st src dest).copied = st.copied := by
  unfold stepWarn; split <;> rfl

theorem stepWarn_warnings (st : RunState) (src dest : String) :
    (stepWarn st src dest).warnings = st.warnings ++
      (match st.copied.lookup dest with
       | some prev => [(src, prev, dest)]
       | none => []) := by
  unfold stepWarn
  cases h : st.copied.lookup dest <;> simp [h]

theorem stepRemove_lookup_ne (st : RunState) (dest q : String) (h : q ≠ dest) :
    (stepRemove st dest).fs.files.lookup q = st.fs.files.lookup q := by
  unfold stepRemove
  split
  · exact lookup_fsRemove_ne st.fs dest q h
  · rfl

theorem stepRemove_copied (st : RunState) (dest : String) :
    (stepRemove st dest).copied = st.copied := by
  unfold stepRemove; split <;> rfl

theorem stepRemove_warnings (st : RunState) (dest : String) :
    (stepRemove st dest).warnings = st.warnings := by
  unfold stepRemove; split <;> rfl

/-- Helper: a copy step with an existing source and a destination different
from the source succeeds, writes the source's content at the destination,
leaves every other path untouched, records the copy, and emits the
collision warning exactly when the destination was already written. -/
theorem runStep_copy (output : String) (st : RunState) (src d c : String)
    (hsrc : st.fs.files.lookup src = some c)
    (hne : joinPath (output ++ "/") d ≠ src) :
    ∃ st', runStep output false st (some src, d) = .ok st' ∧
      st'.fs.files.lookup (joinPath (output ++ "/") d) = some c ∧
      (∀ q, q ≠ joinPath (output ++ "/") d → st'.fs.files.lookup q = st.fs.files.lookup q) ∧
      st'.copied = (joinPath (output ++ "/") d, src) :: st.copied ∧
      st'.warnings = st.warnings ++
        (match st.copied.lookup (joinPath (output ++ "/") d) with
         | some prev => [(src, prev, joinPath (output ++ "/") d)]
         | none => []) := by
  have hnsd : src ≠ joinPath (output ++ "/") d := fun hh => hne hh.symm
  have h2files :
      (stepWarn (stepMakedirs st (dirname (joinPath (output ++ "/") d))) src
        (joinPath (output ++ "/") d)).fs.files = st.fs.files := by
    rw [stepWarn_fs, stepMakedirs_files]
  have hsame :
      sameFileCheck (stepWarn (stepMakedirs st (dirname (joinPath (output ++ "/") d))) src
        (joinPath (output ++ "/") d)).fs src (joinPath (output ++ "/") d) = false := by
    simp [sameFileCheck, hnsd]
  have h3src :
      (stepRemove (stepWarn (stepMakedirs st (dirname (joinPath (output ++ "/") d))) src
        (joinPath (output ++ "/") d)) (joinPath (output ++ "/") d)).fs.files.lookup src =
        some c := by
    rw [stepRemove_lookup_ne _ _ _ hnsd]
    rw [h2files]
    exact hsrc
  unfold runStep
  dsimp only
  rw [hsame]
  simp only [Bool.false_eq_true, if_false]
  rw [h3src]
  refine ⟨_, rfl, ?_, ?_, ?_, ?_⟩
  · exact lookup_fsWrite_self _ _ _
  · intro q hq
    rw [lookup_fsWrite_ne _ _ _ _ hq]
    rw [stepRemove_lookup_ne _ _ _ hq]
    rw [h2files]
  · rw [stepRemove_copied, stepWarn_copied, stepMakedirs_copied]
  · rw [stepRemove_warnings, stepWarn_warnings, stepMakedirs_warnings, stepMakedirs_copied]

/-- Helper: a copy step whose resolved source and destination are the same
existing file fails with the configuration error, carrying a state in which
that file keeps its content. -/
theorem runStep_selfcopy (output : String) (link : Bool) (st : RunState) (src d c : String)
    (hdest : joinPath (output ++ "/") d = src)
    (hsrc : st.fs.files.lookup src = some c) :
    ∃ st', runStep output link st (some src, d) =
        .error (.configError ("Trying to copy " ++ src ++ " over itself " ++ src), st') ∧
      st'.fs.files.lookup src = some c := by
  have h2files : (stepWarn (stepMakedirs st (dirname src)) src src).fs.files =
      st.fs.files := by
    rw [stepWarn_fs, stepMakedirs_files]
  have hsame :
      sameFileCheck (stepWarn (stepMakedirs st (dirname src)) src src).fs src src = true := by
    simp [sameFileCheck, fsIsFile, h2files, hsrc]
  refine ⟨stepWarn (stepMakedirs st (dirname src)) src src, ?_, by rw [h2files]; exact hsrc⟩
  unfold runStep
  dsimp only
  rw [hdest, if_pos hsame]

/-! ### C3: self-copy detection -/

/-- C3 counterexample: a run whose second entry is a self-copy does fail
with the configuration error, but only after the first entry has already
been copied — the failure state contains `/o/x`, which did not exist before
the run, so the failure does not precede every filesystem mutation. -/
theorem self_copy_counterexample :
    runCopy "/o" false [(some "/a", "x"), (some "/o/b", "b")]
        { fs := { files := [("/a", "A"), ("/o/b", "B")], dirs := ["/o"] },
          copied := [], warnings := [] } =
      .error (.configError "Trying to copy /o/b over itself /o/b",
        { fs := { files := [("/o/x", "A"), ("/a", "A"), ("/o/b", "B")], dirs := ["/o"] },
          copied := [("/o/x", "/a")], warnings := [] }) ∧
    ({ files := [("/a", "A"), ("/o/b", "B")], dirs := ["/o"] } : Fs).files.lookup "/o/x" =
      none := by decide

/-- C3 amended: every entry whose resolved source and destination denote the
same existing file makes the run fail with a configuration error before
that entry removes or overwrites the file and before any later entry is
processed — the file keeps its content in the failure state; filesystem
mutations already performed by earlier entries of the same run, however,
persist. -/
theorem self_copy_amended (output : String) (link : Bool) (st : RunState)
    (src d c : String) (rest : List (Option String × String))
    (hdest : joinPath (output ++ "/") d = src)
    (hsrc : st.fs.files.lookup src = some c) :
    ∃ st', runCopy output link ((some src, d) :: rest) st =
        .error (.configError ("Trying to copy " ++ src ++ " over itself " ++ src), st') ∧
      st'.fs.files.lookup src = some c := by
  obtain ⟨st', hstep, hl⟩ := runStep_selfcopy output link st src d c hdest hsrc
  exact ⟨st', by simp only [runCopy, hstep], hl⟩

/-- Witness for C3 amended: a concrete self-copy entry fails with the
configuration error and the file survives with its content. -/
theorem self_copy_amended_witness :
    ∃ st', runCopy "/o" false [(some "/o/b", "b")]
        { fs := { files := [("/o/b", "B")], dirs := ["/o"] }, copied := [], warnings := [] } =
        .error (.configError ("Trying to copy " ++ "/o/b" ++ " over itself " ++ "/o/b"), st') ∧
      st'.fs.files.lookup "/o/b" = some "B" :=
  self_copy_amended "/o" false
    { fs := { files := [("/o/b", "B")], dirs := ["/o"] }, copied := [], warnings := [] }
    "/o/b" "b" "B" [] (by decide) (by decide)

/-! ### C4: destination collision warnings -/

/-- C4: when two entries with distinct existing sources resolve to the same
destination, the run succeeds (the warning is non-fatal) with exactly one
collision warning naming both sources and the destination, both copies are
performed (both are recorded in the `copied` bookkeeping), and the later
entry's content wins at the destination. -/
theorem overwrite_warning (output : String) (st : RunState) (s1 s2 d c1 c2 : String)
    (h1 : st.fs.files.lookup s1 = some c1) (h2 : st.fs.files.lookup s2 = some c2)
    (hne1 : joinPath (output ++ "/") d ≠ s1) (hne2 : joinPath (output ++ "/") d ≠ s2)
    (hcop : st.copied = []) (hwarn : st.warnings = []) :
    ∃ st', runCopy output false [(some s1, d), (some s2, d)] st = .ok st' ∧
      st'.warnings = [(s2, s1, joinPath (output ++ "/") d)] ∧
      st'.fs.files.lookup (joinPath (output ++ "/") d) = some c2 ∧
      st'.copied = [(joinPath (output ++ "/") d, s2), (joinPath (output ++ "/") d, s1)] := by
  obtain ⟨st1, hst1, hl1, hpres1, hcop1, hwarn1⟩ := runStep_copy output st s1 d c1 h1 hne1
  have h2' : st1.fs.files.lookup s2 = some c2 := by
    rw [hpres1 s2 (fun hh => hne2 hh.symm)]
    exact h2
  obtain ⟨st2, hst2, hl2, hpres2, hcop2, hwarn2⟩ := runStep_copy output st1 s2 d c2 h2' hne2
  refine ⟨st2, ?_, ?_, hl2, ?_⟩
  · simp only [runCopy, hst1, hst2]
  · rw [hwarn2, hwarn1, hcop1, hcop, hwarn]
    simp [List.lookup]
  · rw [hcop2, hcop1, hcop]

/-- Witness for C4: two concrete sources colliding on one destination. -/
theorem overwrite_warning_witness :
    ∃ st', runCopy "/o" false [(some "/a", "x"), (some "/b", "x")]
        { fs := { files := [("/a", "A"), ("/b", "B")], dirs := ["/o"] },
          copied := [], warnings := [] } = .ok st' ∧
      st'.warnings = [("/b", "/a", joinPath ("/o" ++ "/") "x")] ∧
      st'.fs.files.lookup (joinPath ("/o" ++ "/") "x") = some "B" ∧
      st'.copied = [(joinPath ("/o" ++ "/") "x", "/b"), (joinPath ("/o" ++ "/") "x", "/a")] :=
  overwrite_warning "/o"
    { fs := { files := [("/a", "A"), ("/b", "B")], dirs := ["/o"] },
      copied := [], warnings := [] }
    "/a" "/b" "x" "A" "B" (by decide) (by decide) (by decide) (by decide) rfl rfl

/-! ### C8: collector-generated entries are skipped but declared -/

/-- C8: a resolved entry with an absent source is skipped wholesale by the
Executor (the run over the remaining entries is unchanged), while its
destination still appears, joined under the output directory, in the
output's declared target list. -/
theorem generated_entries (output : String) (link : Bool) (d : String)
    (rest : List (Option String × String)) (st : RunState)
    (env : Env) (kst : KState) (specs : List FilesList) (out_dir : String) :
    runCopy output link ((none, d) :: rest) st = runCopy output link rest st ∧
    (∀ d2 files st2,
      getFilesM { env with output_dir := out_dir } true specs kst = .ok (files, st2) →
      (none, d2) ∈ files →
      ∀ tgts, get_targets env kst specs out_dir = .ok tgts → joinPath out_dir d2 ∈ tgts) := by
  constructor
  · simp only [runCopy, runStep]
  · intro d2 files st2 hres hmem tgts htg
    unfold get_targets at htg
    rw [hres] at htg
    simp only [Except.map, Except.ok.injEq] at htg
    rw [← htg]
    refine (List.perm_insertionSort _ _).mem_iff.mpr ?_
    exact List.mem_map.mpr ⟨(none, d2), hmem, rfl⟩

/-- Witness for C8: a `3d_models` spec with `save_pcb` announces a
generated bundle file: it appears in the declared targets, and the Executor
skips its entry. -/
theorem generated_entries_witness :
    runCopy "/o" false [(none, "t")] {} = runCopy "/o" false [] {} ∧
    joinPath "/out" "bundle.kicad_pro" ∈ ["/out/bundle.kicad_pro"] := by
  have h := generated_entries "/o" false "t" [] {}
      { cwd := "/w", out_dir := "/out", bundleFiles := ["bundle.kicad_pro"] } {}
      [{ source := "*", source_type := .models3d, save_pcb := true }] "/out"
  refine ⟨h.1, ?_⟩
  exact h.2 "bundle.kicad_pro" [(none, "bundle.kicad_pro")] {} (by decide) (by decide)
    ["/out/bundle.kicad_pro"] (by decide)

/-! ### Lemmas for idempotence of the collection pass -/

theorem run_output_fs_append (st : KState) (n : String) :
    ∃ e, (run_output st n).fs = st.fs ++ e :=
  ⟨_, rfl⟩

theorem checkTargets_fs_append (n : String) (l : List String) :
    ∀ st st', checkTargets st n l = .ok st' → ∃ e, st'.fs = st.fs ++ e := by
  induction l with
  | nil =>
    intro st st' h
    simp only [checkTargets] at h
    cases h
    exact ⟨[], (List.append_nil _).symm⟩
  | cons file rest ih =>
    intro st st' h
    simp only [checkTargets] at h
    split at h
    · exact ih st st' h
    · by_cases hd : outDone st n = true
      · simp only [hd, if_true] at h
        split at h
        · exact ih st st' h
        · cases h
      · rw [Bool.not_eq_true] at hd
        simp only [hd, Bool.false_eq_true, if_false] at h
        split at h
        · obtain ⟨e2, he2⟩ := ih _ st' h
          obtain ⟨e1, he1⟩ := run_output_fs_append st n
          exact ⟨e1 ++ e2, by rw [he2, he1, List.append_assoc]⟩
        · cases h

theorem checkTargets_fs_eq (n : String) (l : List String) :
    ∀ st st', checkTargets st n l = .ok st' → st'.fs = st.fs → st' = st := by
  induction l with
  | nil =>
    intro st st' h _
    simp only [checkTargets] at h
    cases h
    rfl
  | cons file rest ih =>
    intro st st' h heq
    simp only [checkTargets] at h
    split at h
    · exact ih st st' h heq
    · next hfile =>
      by_cases hd : outDone st n = true
      · simp only [hd, if_true] at h
        split at h
        · next hfile2 => exact absurd hfile2 hfile
        · cases h
      · rw [Bool.not_eq_true] at hd
        simp only [hd, Bool.false_eq_true, if_false] at h
        split at h
        · next hfile2 =>
          obtain ⟨e2, he2⟩ := checkTargets_fs_append n rest _ st' h
          obtain ⟨e1, he1⟩ := run_output_fs_append st n
          rw [he1, List.append_assoc] at he2
          rw [heq] at he2
          have hlen := congrArg List.length he2
          simp only [List.length_append] at hlen
          have he1nil : e1 = [] := List.eq_nil_of_length_eq_zero (by omega)
          rw [he1nil, List.append_nil] at he1
          rw [he1] at hfile2
          exact absurd hfile2 hfile
        · cases h

theorem get_from_output_fs_append (st : KState) (f : FilesList) (nr : Bool)
    (fl : List String) (st' : KState) (h : get_from_output st f nr = .ok (fl, st')) :
    ∃ e, st'.fs = st.fs ++ e := by
  unfold get_from_output at h
  cases hget : getOutput st f.source with
  | none => rw [hget] at h; cases h
  | some out =>
    rw [hget] at h
    dsimp only at h
    split at h
    · cases h
      exact ⟨[], (List.append_nil _).symm⟩
    · cases hct : checkTargets st f.source out.targets with
      | error e => rw [hct] at h; cases h
      | ok stc =>
        rw [hct] at h
        simp only [Except.map] at h
        cases h
        exact checkTargets_fs_append f.source out.targets st _ hct

theorem get_from_output_fs_eq (st : KState) (f : FilesList) (nr : Bool)
    (fl : List String) (st' : KState) (h : get_from_output st f nr = .ok (fl, st'))
    (heq : st'.fs = st.fs) : st' = st := by
  unfold get_from_output at h
  cases hget : getOutput st f.source with
  | none => rw [hget] at h; cases h
  | some out =>
    rw [hget] at h
    dsimp only at h
    split at h
    · cases h
      rfl
    · cases hct : checkTargets st f.source out.targets with
      | error e => rw [hct] at h; cases h
      | ok stc =>
        rw [hct] at h
        simp only [Except.map] at h
        cases h
        exact checkTargets_fs_eq f.source out.targets st _ hct heq

/-- Helper: a successful per-spec resolution either leaves the state
untouched (`files`, `out_files`, `3d_models`, `project`) or is the state
produced by `get_from_output` (`output`). -/
theorem collectSpec_state (env : Env) (nr : Bool) (st : KState) (f : FilesList)
    (l : List (Option String × String)) (st' : KState)
    (h : collectSpec env nr st f = .ok (l, st')) :
    st' = st ∨ ∃ fl, get_from_output st f nr = .ok (fl, st') := by
  cases hty : f.source_type with
  | output =>
    simp only [collectSpec, hty] at h
    simp at h
    cases hgo : get_from_output st f nr with
    | error e => rw [hgo] at h; cases h
    | ok p =>
      obtain ⟨fl, stx⟩ := p
      rw [hgo] at h
      dsimp only at h
      cases h
      exact Or.inr ⟨fl, rfl⟩
  | files =>
    simp [collectSpec, hty] at h
    exact Or.inl h.2.symm
  | out_files =>
    simp [collectSpec, hty] at h
    exact Or.inl h.2.symm
  | models3d =>
    simp [collectSpec, hty] at h
    exact Or.inl h.2.symm
  | project =>
    by_cases hki : env.ki6 = true
    · simp [collectSpec, hty, hki] at h
      exact Or.inl h.2.symm
    · rw [Bool.not_eq_true] at hki
      simp [collectSpec, hty, hki] at h

theorem collectSpec_fs_append (env : Env) (nr : Bool) (st : KState) (f : FilesList)
    (l : List (Option String × String)) (st' : KState)
    (h : collectSpec env nr st f = .ok (l, st')) : ∃ e, st'.fs = st.fs ++ e := by
  rcases collectSpec_state env nr st f l st' h with heq | ⟨fl, hgo⟩
  · exact ⟨[], by rw [heq, List.append_nil]⟩
  · exact get_from_output_fs_append st f nr fl st' hgo

theorem collectSpec_fs_eq (env : Env) (nr : Bool) (st : KState) (f : FilesList)
    (l : List (Option String × String)) (st' : KState)
    (h : collectSpec env nr st f = .ok (l, st')) (heq : st'.fs = st.fs) : st' = st := by
  rcases collectSpec_state env nr st f l st' h with hst | ⟨fl, hgo⟩
  · exact hst
  · exact get_from_output_fs_eq st f nr fl st' hgo heq

theorem getFilesM_fs_append (env : Env) (nr : Bool) :
    ∀ (specs : List FilesList) (st : KState) (L : List (Option String × String)) (s1 : KState),
      getFilesM env nr specs st = .ok (L, s1) → ∃ e, s1.fs = st.fs ++ e := by
  intro specs
  induction specs with
  | nil =>
    intro st L s1 h
    simp only [getFilesM] at h
    cases h
    exact ⟨[], (List.append_nil _).symm⟩
  | cons f rest ih =>
    intro st L s1 h
    simp only [getFilesM] at h
    cases hc : collectSpec env nr st f with
    | error e => rw [hc] at h; cases h
    | ok p =>
      obtain ⟨l, mid⟩ := p
      rw [hc] at h
      dsimp only at h
      cases hr : getFilesM env nr rest mid with
      | error e => rw [hr] at h; cases h
      | ok q =>
        obtain ⟨ls, s2⟩ := q
        rw [hr] at h
        dsimp only at h
        cases h
        obtain ⟨e1, he1⟩ := collectSpec_fs_append env nr st f l mid hc
        obtain ⟨e2, he2⟩ := ih mid ls s1 hr
        exact ⟨e1 ++ e2, by rw [he2, he1, List.append_assoc]⟩

theorem getFilesM_fs_eq (env : Env) (nr : Bool) :
    ∀ (specs : List FilesList) (st : KState) (L : List (Option String × String)) (s1 : KState),
      getFilesM env nr specs st = .ok (L, s1) → s1.fs = st.fs → s1 = st := by
  intro specs
  induction specs with
  | nil =>
    intro st L s1 h _
    simp only [getFilesM] at h
    cases h
    rfl
  | cons f rest ih =>
    intro st L s1 h heq
    simp only [getFilesM] at h
    cases hc : collectSpec env nr st f with
    | error e => rw [hc] at h; cases h
    | ok p =>
      obtain ⟨l, mid⟩ := p
      rw [hc] at h
      dsimp only at h
      cases hr : getFilesM env nr rest mid with
      | error e => rw [hr] at h; cases h
      | ok q =>
        obtain ⟨ls, s2⟩ := q
        rw [hr] at h
        dsimp only at h
        cases h
        obtain ⟨e1, he1⟩ := collectSpec_fs_append env nr st f l mid hc
        obtain ⟨e2, he2⟩ := getFilesM_fs_append env nr rest mid ls s1 hr
        rw [he1, List.append_assoc] at he2
        rw [heq] at he2
        have hlen := congrArg List.length he2
        simp only [List.length_append] at hlen
        have he1nil : e1 = [] := List.eq_nil_of_length_eq_zero (by omega)
        have he2nil : e2 = [] := List.eq_nil_of_length_eq_zero (by omega)
        rw [he1nil, List.append_nil] at he1
        have hmid : mid = st := collectSpec_fs_eq env nr st f l mid hc he1
        have hs1fs : s1.fs = mid.fs := by
          rw [heq, he1]
        exact (ih mid ls s1 hr hs1fs).trans hmid

/-! ### C9: idempotence of the collection pass -/

/-- C9: a collection pass that leaves the filesystem unchanged (in
particular every dry pass, and any pass whose lazy triggering created no
new file) leaves the whole state unchanged, so running it again yields the
identical resolved list, in the same order, with the same final state. -/
theorem collection_idempotent (env : Env) (nr : Bool) (specs : List FilesList)
    (st : KState) (L : List (Option String × String)) (s1 : KState)
    (h1 : getFilesM env nr specs st = .ok (L, s1)) (hfs : s1.fs = st.fs) :
    getFilesM env nr specs s1 = .ok (L, s1) := by
  have hst : s1 = st := getFilesM_fs_eq env nr specs st L s1 h1 hfs
  subst hst
  exact h1

/-- Witness for C9: a two-spec collection (a `files` glob and an `output`
spec whose target already exists) re-run on its own final state returns the
identical list. -/
theorem collection_idempotent_witness :
    getFilesM { cwd := "/w", out_dir := "/out" } false
        [{ source := "*.csv", source_type := .files },
         { source := "prod", source_type := .output }]
        { fs := ["/w/a.csv", "/out/x.bin"],
          outs := [{ name := "prod", targets := ["/out/x.bin"] }] } =
      .ok ([(some "/w/a.csv", "a.csv"), (some "/out/x.bin", "x.bin")],
        { fs := ["/w/a.csv", "/out/x.bin"],
          outs := [{ name := "prod", targets := ["/out/x.bin"] }] }) := by
  exact collection_idempotent { cwd := "/w", out_dir := "/out" } false
    [{ source := "*.csv", source_type := .files },
     { source := "prod", source_type := .output }]
    { fs := ["/w/a.csv", "/out/x.bin"],
      outs := [{ name := "prod", targets := ["/out/x.bin"] }] }
    [(some "/w/a.csv", "a.csv"), (some "/out/x.bin", "x.bin")]
    { fs := ["/w/a.csv", "/out/x.bin"],
      outs := [{ name := "prod", targets := ["/out/x.bin"] }] }
    (by decide) rfl

/-! ### Lemmas about footprint extraction -/

/-- Helper: how one `copy_footprints` iteration changes the alias table. -/
theorem copyFpStep_aliases (base prj : String) (n2p : String → Option String)
    (fs : List String) (acc : FpAcc) (m : FpModule) :
    (copyFpStep base prj n2p fs acc m).aliases =
      match n2p m.libNick with
      | none => acc.aliases
      | some _ =>
        if (acc.aliases.map Prod.fst).contains m.libNick then acc.aliases
        else acc.aliases ++ [(m.libNick, joinPath prj (m.libNick ++ ".pretty"))] := by
  unfold copyFpStep
  dsimp only
  cases hn : n2p m.libNick with
  | none => rfl
  | some src_lib =>
    dsimp only
    by_cases hk : ((acc.aliases.map Prod.fst).contains m.libNick) = true
    · simp only [hk, if_true]
      split
      · rfl
      · split <;> rfl
    · rw [Bool.not_eq_true] at hk
      simp only [hk, Bool.false_eq_true, if_false]
      split
      · rfl
      · split <;> rfl

/-- Helper: how one `copy_footprints` iteration changes the copy pairs and
the dedup set — either untouched or extended by one not-yet-queued source. -/
theorem copyFpStep_pairs (base prj : String) (n2p : String → Option String)
    (fs : List String) (acc : FpAcc) (m : FpModule) :
    ((copyFpStep base prj n2p fs acc m).pairs = acc.pairs ∧
      (copyFpStep base prj n2p fs acc m).added = acc.added) ∨
    (∃ src dst, acc.added.contains src = false ∧
      (copyFpStep base prj n2p fs acc m).pairs = acc.pairs ++ [(src, dst)] ∧
      (copyFpStep base prj n2p fs acc m).added = acc.added ++ [src]) := by
  unfold copyFpStep
  dsimp only
  cases hn : n2p m.libNick with
  | none => exact Or.inl ⟨rfl, rfl⟩
  | some src_lib =>
    dsimp only
    by_cases hk : ((acc.aliases.map Prod.fst).contains m.libNick) = true
    · simp only [hk, if_true]
      split
      · exact Or.inl ⟨rfl, rfl⟩
      · split
        · exact Or.inl ⟨rfl, rfl⟩
        · next hnotin =>
          rw [Bool.not_eq_true] at hnotin
          exact Or.inr ⟨_, _, hnotin, rfl, rfl⟩
    · rw [Bool.not_eq_true] at hk
      simp only [hk, Bool.false_eq_true, if_false]
      split
      · exact Or.inl ⟨rfl, rfl⟩
      · split
        · exact Or.inl ⟨rfl, rfl⟩
        · next hnotin =>
          rw [Bool.not_eq_true] at hnotin
          exact Or.inr ⟨_, _, hnotin, rfl, rfl⟩

/-- Helper: the three loop invariants of `copy_footprints` are preserved by
one iteration, and the alias keys grow by exactly the nicknames with a
known library path. -/
theorem copyFpStep_props (base prj : String) (n2p : String → Option String)
    (fs : List String) (acc : FpAcc) (m : FpModule)
    (h1 : acc.pairs.map Prod.fst = acc.added) (h2 : acc.added.Nodup)
    (h3 : (acc.aliases.map Prod.fst).Nodup) :
    ((copyFpStep base prj n2p fs acc m).pairs.map Prod.fst =
      (copyFpStep base prj n2p fs acc m).added) ∧
    (copyFpStep base prj n2p fs acc m).added.Nodup ∧
    ((copyFpStep base prj n2p fs acc m).aliases.map Prod.fst).Nodup ∧
    (∀ nick, nick ∈ (copyFpStep base prj n2p fs acc m).aliases.map Prod.fst ↔
      nick ∈ acc.aliases.map Prod.fst ∨ (m.libNick = nick ∧ (n2p nick).isSome = true)) := by
  refine ⟨?_, ?_, ?_, ?_⟩
  · rcases copyFpStep_pairs base prj n2p fs acc m with ⟨hp, ha⟩ | ⟨src, dst, hnin, hp, ha⟩
    · rw [hp, ha, h1]
    · rw [hp, ha, List.map_append, h1]
      rfl
  · rcases copyFpStep_pairs base prj n2p fs acc m with ⟨_, ha⟩ | ⟨src, dst, hnin, _, ha⟩
    · rw [ha]; exact h2
    · rw [ha]
      have hsrc : src ∉ acc.added := by
        intro hm
        rw [(contains_iff_mem acc.added src).mpr hm] at hnin
        exact Bool.noConfusion hnin
      simp [List.nodup_append, h2, hsrc]
  · rw [copyFpStep_aliases]
    cases hn : n2p m.libNick with
    | none => exact h3
    | some src_lib =>
      dsimp only
      by_cases hk : ((acc.aliases.map Prod.fst).contains m.libNick) = true
      · simp only [hk, if_true]; exact h3
      · rw [Bool.not_eq_true] at hk
        simp only [hk, Bool.false_eq_true, if_false]
        have hnk : m.libNick ∉ acc.aliases.map Prod.fst := by
          intro hm
          rw [(contains_iff_mem _ _).mpr hm] at hk
          exact Bool.noConfusion hk
        simp [List.nodup_append, List.map_append, h3, hnk]
  · intro nick
    rw [copyFpStep_aliases]
    cases hn : n2p m.libNick with
    | none =>
      dsimp only
      constructor
      · exact Or.inl
      · rintro (hmem | ⟨hm, hs⟩)
        · exact hmem
        · rw [← hm, hn] at hs
          cases hs
    | some src_lib =>
      dsimp only
      by_cases hk : ((acc.aliases.map Prod.fst).contains m.libNick) = true
      · simp only [hk, if_true]
        constructor
        · exact Or.inl
        · rintro (hmem | ⟨hm, _⟩)
          · exact hmem
          · rw [← hm]
            exact (contains_iff_mem _ _).mp hk
      · rw [Bool.not_eq_true] at hk
        simp only [hk, Bool.false_eq_true, if_false, List.map_append, List.mem_append]
        constructor
        · rintro (hmem | heq)
          · exact Or.inl hmem
          · have hnick : nick = m.libNick := by simpa using heq
            refine Or.inr ⟨hnick.symm, ?_⟩
            rw [hnick, hn]
            rfl
        · rintro (hmem | ⟨hm, _⟩)
          · exact Or.inl hmem
          · right
            simp [← hm]

/-- Helper: the `copy_footprints` fold keeps its invariants and its alias
keys are exactly the initial ones plus every nickname of a processed module
with a known library path. -/
theorem copyFpStep_fold (base prj : String) (n2p : String → Option String)
    (fs : List String) :
    ∀ (ms : List FpModule) (acc : FpAcc),
      acc.pairs.map Prod.fst = acc.added → acc.added.Nodup →
      (acc.aliases.map Prod.fst).Nodup →
      ((ms.foldl (copyFpStep base prj n2p fs) acc).pairs.map Prod.fst =
        (ms.foldl (copyFpStep base prj n2p fs) acc).added) ∧
      (ms.foldl (copyFpStep base prj n2p fs) acc).added.Nodup ∧
      ((ms.foldl (copyFpStep base prj n2p fs) acc).aliases.map Prod.fst).Nodup ∧
      (∀ nick, nick ∈ (ms.foldl (copyFpStep base prj n2p fs) acc).aliases.map Prod.fst ↔
        nick ∈ acc.aliases.map Prod.fst ∨
          ∃ m, m ∈ ms ∧ m.libNick = nick ∧ (n2p nick).isSome = true) := by
  intro ms
  induction ms with
  | nil =>
    intro acc h1 h2 h3
    refine ⟨h1, h2, h3, ?_⟩
    simp
  | cons m t ih =>
    intro acc h1 h2 h3
    rw [List.foldl_cons]
    obtain ⟨h1', h2', h3', hkeys⟩ := copyFpStep_props base prj n2p fs acc m h1 h2 h3
    obtain ⟨H1, H2, H3, H4⟩ := ih (copyFpStep base prj n2p fs acc m) h1' h2' h3'
    refine ⟨H1, H2, H3, ?_⟩
    intro nick
    rw [H4 nick, hkeys nick]
    constructor
    · rintro ((hmem | ⟨hm, hs⟩) | ⟨m', hm', hs'⟩)
      · exact Or.inl hmem
      · exact Or.inr ⟨m, List.mem_cons_self m t, hm, hs⟩
      · exact Or.inr ⟨m', List.mem_cons_of_mem m hm', hs'⟩
    · rintro (hmem | ⟨m', hm', heq, hs⟩)
      · exact Or.inl (Or.inl hmem)
      · rcases List.mem_cons.mp hm' with hm0 | hmt
        · exact Or.inl (Or.inr ⟨by rw [hm0] at heq; exact heq, hs⟩)
        · exact Or.inr ⟨m', hmt, heq, hs⟩

/-! ### C10: deduplication in project-mode footprint extraction -/

/-- C10: in project-mode footprint extraction every distinct footprint
source file is queued for copying at most once even when several board
components reference the same library footprint, and the synthesized
footprint library table holds exactly one alias entry per distinct library
nickname encountered among the modules (those with a known library path). -/
theorem copy_footprints_dedup (output_dir dest : String) (n2p : String → Option String)
    (fs : List String) (modules : List FpModule) :
    ((copy_footprints output_dir dest n2p fs modules).pairs.map Prod.fst).Nodup ∧
    ((copy_footprints output_dir dest n2p fs modules).aliases.map Prod.fst).Nodup ∧
    (∀ nick, nick ∈ (copy_footprints output_dir dest n2p fs modules).aliases.map Prod.fst ↔
      ∃ m, m ∈ modules ∧ m.libNick = nick ∧ (n2p nick).isSome = true) := by
  obtain ⟨H1, H2, H3, H4⟩ := copyFpStep_fold
    (joinPath (joinPath output_dir dest) "footprints")
    (joinPath "$\x7bKIPRJMOD\x7d" "footprints") n2p fs modules {} rfl List.nodup_nil
    List.nodup_nil
  refine ⟨?_, H3, ?_⟩
  · unfold copy_footprints
    rw [H1]
    exact H2
  · intro nick
    unfold copy_footprints
    rw [H4 nick]
    simp [FpAcc.aliases]

end KiBotSpec
